import Mathlib

/-!
Shallow embedding of the dynamap library (entity-relationship layer over
DynamoDB).  Go strings are modelled as lists of characters, `time.Time`
and `time.Duration` as integers (nanoseconds), Go errors as an inductive
`GoError` (so that the distinguished `ErrItemNotFound` sentinel can be told
apart from wrapped errors, as `errors.Is` does), and DynamoDB attribute
values as an inductive `AttributeValue`.  The injected clock (`Clock` /
`DefaultClock`) is modelled by passing the current time `now : Time`
explicitly; the `Tick` field of `MarshalOptions` stores that value.
-/

/-- Go strings, modelled as lists of characters. -/
abbrev GoStr := List Char

/-- Conversion from Lean string literals to the Go string model. -/
def gs (s : String) : GoStr := s.data

/-- Go `time.Time`, modelled as nanoseconds since the epoch; `0` is the zero time. -/
abbrev Time := Int

/-- Go `time.Duration`, in nanoseconds. -/
abbrev Duration := Int

/-- One hour, in nanoseconds (`time.Hour`). -/
def hourNS : Duration := 3600000000000

/-- Twenty-four hours, in nanoseconds (`24 * time.Hour`). -/
def dayNS : Duration := 24 * hourNS

/-- Go error values.  `itemNotFound` is the `ErrItemNotFound` sentinel;
`wrap`/`wrapArg` model `fmt.Errorf` with a `%w` verb (the wrapped cause is
kept), `msg`/`msgArg` model `fmt.Errorf` without one, and `join1`/`join2`
model `errors.Join` of one or two non-nil errors. -/
inductive GoError where
  | itemNotFound : GoError
  | msg (s : String) : GoError
  | msgArg (s : String) (arg : GoStr) : GoError
  | wrap (s : String) (cause : GoError) : GoError
  | wrapArg (s : String) (arg : GoStr) (cause : GoError) : GoError
  | join1 (cause : GoError) : GoError
  | join2 (left right : GoError) : GoError
deriving DecidableEq

/-- DynamoDB attribute values (the `types.AttributeValue` variants the library
touches): strings, numbers, binary blobs, booleans, maps, RFC3339-encoded
times (the default `attributevalue` encoding of `time.Time`), and NULL. -/
inductive AttributeValue where
  | S (s : GoStr) : AttributeValue
  | N (n : Int) : AttributeValue
  | B (bytes : List Nat) : AttributeValue
  | BOOL (b : Bool) : AttributeValue
  | T (t : Time) : AttributeValue
  | M (fields : List (String × AttributeValue)) : AttributeValue
  | Null : AttributeValue

/-- Item is the dynamodb attribute value map, modelled as an association list. -/
abbrev Item := List (String × AttributeValue)

deriving instance DecidableEq for Except

/-- First occurrence of `sep` in a string: returns the part before the first
occurrence and the part after it (the functional content of `strings.Index`
followed by slicing).  Returns `none` when `sep` does not occur. -/
def splitFirst (sep : GoStr) : GoStr → Option (GoStr × GoStr)
  | [] => none
  | c :: rest =>
    if sep.isPrefixOf (c :: rest) then some ([], (c :: rest).drop sep.length)
    else
      match splitFirst sep rest with
      | none => none
      | some (pre, post) => some (c :: pre, post)

/-- Fuel-driven loop of Go `strings.Split` for a non-empty separator:
repeatedly cut at the first occurrence of `sep`. -/
def goSplitNE (sep : GoStr) : Nat → GoStr → List GoStr
  | 0, s => [s]
  | fuel + 1, s =>
    match splitFirst sep s with
    | none => [s]
    | some (pre, post) => pre :: goSplitNE sep fuel post

/-- Go `strings.Split s sep`.  An empty separator explodes the string into
its characters (Go splits after each UTF-8 rune); otherwise the string is
split around each non-overlapping occurrence of `sep`, leftmost first. -/
def goSplit (s sep : GoStr) : List GoStr :=
  if sep = [] then s.map (fun c => [c]) else goSplitNE sep (s.length + 1) s

/-- Go `strings.Contains s sub`. -/
def goContains (s sub : GoStr) : Bool :=
  sub.isEmpty || (splitFirst sub s).isSome

/-- MarshalOptions contains configuration options for marshaling entities to
relationships (field for field the Go struct; `Tick` holds the value the
injected clock function returns). -/
structure MarshalOptions where
  SourceID : GoStr
  SourcePrefix : GoStr
  TargetID : GoStr
  TargetPrefix : GoStr
  TimeToLive : Duration
  Label : GoStr
  Created : Time
  Updated : Time
  RefSortKey : GoStr
  Tick : Time
  KeyDelimiter : GoStr
  LabelDelimiter : GoStr
  SkipRefs : Bool
deriving DecidableEq

/-- The zero value of the Go `MarshalOptions` struct. -/
def MarshalOptions.zero : MarshalOptions :=
  { SourceID := [], SourcePrefix := [], TargetID := [], TargetPrefix := []
    TimeToLive := 0, Label := [], Created := 0, Updated := 0, RefSortKey := []
    Tick := 0, KeyDelimiter := [], LabelDelimiter := [], SkipRefs := false }

/-- WithSelfTarget configures the MarshalOptions for a self-referential
relationship. -/
def MarshalOptions.WithSelfTarget (mo : MarshalOptions) (label id : GoStr) : MarshalOptions :=
  { mo with SourceID := id, TargetID := id, SourcePrefix := label,
            TargetPrefix := label, Label := label }

/-- The `apply` method: run each caller-supplied option function in order. -/
def MarshalOptions.apply (mo : MarshalOptions) :
    List (MarshalOptions → MarshalOptions) → MarshalOptions
  | [] => mo
  | f :: fs => (f mo).apply fs

/-- Composite source key: `SourcePrefix + KeyDelimiter + SourceID`. -/
def MarshalOptions.sourceKey (mo : MarshalOptions) : GoStr :=
  mo.SourcePrefix ++ mo.KeyDelimiter ++ mo.SourceID

/-- Composite target key: `TargetPrefix + KeyDelimiter + TargetID`. -/
def MarshalOptions.targetKey (mo : MarshalOptions) : GoStr :=
  mo.TargetPrefix ++ mo.KeyDelimiter ++ mo.TargetID

/-- Relationship label for a named relationship:
`<source_prefix>/<source_id>/<relationship_name>` joined with the label
delimiter. -/
def MarshalOptions.refLabel (mo : MarshalOptions) (name : GoStr) : GoStr :=
  mo.SourcePrefix ++ mo.LabelDelimiter ++ mo.SourceID ++ mo.LabelDelimiter ++ name

/-- Relationship represents an association between two entities (field for
field the Go struct; `Data` holds the attribute-value encoding of the
payload that the Go `any` field carries). -/
structure Relationship where
  Source : GoStr
  Target : GoStr
  Label : GoStr
  CreatedAt : Time
  UpdatedAt : Time
  Expires : Time
  Data : AttributeValue
  GSI1SK : GoStr

/-- The `splitLabel` helper: split the relationship label on the label
delimiter; one segment is a self label, three segments are
`(prefix, id, name)`, anything else is an error. -/
def MarshalOptions.splitLabel (mo : MarshalOptions) (rel : Relationship) :
    Except GoError (GoStr × GoStr × GoStr) :=
  match goSplit rel.Label mo.LabelDelimiter with
  | [p0] => .ok (p0, [], [])
  | [p0, p1, p2] => .ok (p0, p1, p2)
  | _ => .error (.msg ("invalid label length; should be 1 or 3"))

/-- Build the default options and apply caller overrides (`newMarshalOptions`):
delimiters default to `#` and `/`, the clock is the injected one, and the
`Created`/`Updated` stamps are taken from the clock before the overrides run. -/
def newMarshalOptions (now : Time)
    (optFns : List (MarshalOptions → MarshalOptions)) : MarshalOptions :=
  let options := { MarshalOptions.zero with
    Tick := now, KeyDelimiter := gs ("#"), LabelDelimiter := gs ("/") }
  let options := { options with Created := options.Tick, Updated := options.Tick }
  options.apply optFns

/-- NewRelationship builds a relationship record from its payload and options:
timestamps default to the clock when unset, and a positive time-to-live sets
`Expires = Created + TimeToLive`. -/
def NewRelationship (data : AttributeValue) (opts0 : MarshalOptions) : Relationship :=
  let opts1 := if opts0.Created = 0 then { opts0 with Created := opts0.Tick } else opts0
  let opts := if opts1.Updated = 0 then { opts1 with Updated := opts1.Tick } else opts1
  let rel : Relationship :=
    { Source := opts.sourceKey, Target := opts.targetKey, Label := opts.Label,
      CreatedAt := opts.Created, UpdatedAt := opts.Updated, Expires := 0,
      Data := data, GSI1SK := opts.RefSortKey }
  if opts.TimeToLive > 0 then { rel with Expires := opts.Created + opts.TimeToLive } else rel

/-- Marshaler can marshal itself into relationship options; the in-place
mutation of the options is modelled by returning the updated options. -/
structure Marshaler where
  marshalSelf : MarshalOptions → Except GoError MarshalOptions

/-- Ref is the small relationship reference descriptor stored as the data of a
non-self record. -/
structure Ref where
  Name : GoStr
  SourceID : GoStr
  TargetID : GoStr

/-- The attribute-value encoding of a `Ref` descriptor. -/
def encodeRef (r : Ref) : AttributeValue :=
  .M [("Name", .S r.Name), ("SourceID", .S r.SourceID), ("TargetID", .S r.TargetID)]

/-- RelationshipContext provides context for creating relationships from a
specific source. -/
structure RelationshipContext where
  source : GoStr
  opts : MarshalOptions
  refs : List Relationship
  err : Option GoError

/-- AddOne adds a "to-one" relationship to the context: a no-op once an error
has been recorded; otherwise the reference describes itself on a copy of the
context options, the source identity is reset to the parent entity, and the
record is appended with the parent source key and the three-segment label. -/
def RelationshipContext.AddOne (r : RelationshipContext) (name : GoStr)
    (ref : Marshaler) : RelationshipContext :=
  match r.err with
  | some _ => r
  | none =>
    match ref.marshalSelf r.opts with
    | .error err => { r with err := some (.wrapArg ("failed to marshal reference") name err) }
    | .ok refOpts0 =>
      let refOpts := { refOpts0 with SourceID := r.opts.SourceID,
                                     SourcePrefix := r.opts.SourcePrefix }
      let rel := NewRelationship
        (encodeRef { SourceID := r.opts.SourceID, TargetID := refOpts.TargetID, Name := name })
        refOpts
      let rel := { rel with Source := r.source, Label := refOpts.refLabel name }
      { r with refs := r.refs ++ [rel] }

/-- AddMany adds "to-many" relationship items to the context, stopping at the
first recorded error. -/
def RelationshipContext.AddMany (r : RelationshipContext) (name : GoStr) :
    List Marshaler → RelationshipContext
  | [] => r
  | m :: rest =>
    let r1 := r.AddOne name m
    match r1.err with
    | some _ => r1
    | none => r1.AddMany name rest

/-- One call a `MarshalRefs` implementation makes on its RelationshipContext. -/
inductive RefCall where
  | addOne (name : GoStr) (ref : Marshaler) : RefCall
  | addMany (name : GoStr) (refs : List Marshaler) : RefCall

/-- Run one `RefCall` against the context. -/
def RelationshipContext.runCall (r : RelationshipContext) : RefCall → RelationshipContext
  | .addOne name m => r.AddOne name m
  | .addMany name ms => r.AddMany name ms

/-- Run a straight-line `MarshalRefs` body (a list of Add calls) against the
context. -/
def RelationshipContext.runCalls (r : RelationshipContext) :
    List RefCall → RelationshipContext
  | [] => r
  | c :: rest => (r.runCall c).runCalls rest

/-- An entity: a Marshaler together with the attribute-value encoding of its
own payload and, when it is a `RefMarshaler`, its `MarshalRefs` body — the
straight-line list of `AddOne`/`AddMany` calls it issues plus the error value
the method itself returns afterwards. -/
structure Entity extends Marshaler where
  payload : AttributeValue
  marshalRefs : Option (List RefCall × Option GoError)

/-- MarshalRelationships marshals the input into a list of relationships: the
self record first, then — when the entity is a RefMarshaler and refs are not
suppressed — the records its `MarshalRefs` body accumulated, failing on the
method error or on the first accumulated error. -/
def MarshalRelationships (e : Entity)
    (optFns : List (MarshalOptions → MarshalOptions)) (now : Time) :
    Except GoError (List Relationship) :=
  let marshalOpts := newMarshalOptions now optFns
  match e.marshalSelf marshalOpts with
  | .error err => .error (.wrap ("failed to marshal self") err)
  | .ok o =>
    let selfRel := NewRelationship e.payload o
    match e.marshalRefs with
    | none => .ok [selfRel]
    | some (script, retErr) =>
      if o.SkipRefs then .ok [selfRel]
      else
        let ctx : RelationshipContext := ⟨o.sourceKey, o, [], none⟩
        let ctx := ctx.runCalls script
        match retErr with
        | some err => .error (.wrap ("failed to marshal refs") err)
        | none =>
          match ctx.err with
          | some err => .error err
          | none => .ok (selfRel :: ctx.refs)

/-- Attribute names of the persisted item shape. -/
def AttributeNameSource : String := "hk"

/-- Attribute name of the sort key. -/
def AttributeNameTarget : String := "sk"

/-- Attribute name of the label. -/
def AttributeNameLabel : String := "label"

/-- The `attributevalue.MarshalMap` encoding of a Relationship: every tagged
field in declaration order; `data` and `gsi1_sk` carry `omitempty`. -/
def marshalRelItem (rel : Relationship) : Item :=
  [(AttributeNameSource, .S rel.Source),
   (AttributeNameTarget, .S rel.Target),
   (AttributeNameLabel, .S rel.Label),
   ("created_at", .T rel.CreatedAt),
   ("updated_at", .T rel.UpdatedAt),
   ("expires", .N rel.Expires)]
  ++ (match rel.Data with
      | .Null => []
      | d => [("data", d)])
  ++ (if rel.GSI1SK = [] then [] else [("gsi1_sk", .S rel.GSI1SK)])

/-- Table contains DynamoDB table configuration and marshal options. -/
structure Table where
  TableName : String
  RefIndexName : String
  KeyDelimiter : GoStr
  LabelDelimiter : GoStr
  PaginationTTL : Duration

/-- NewTable creates a new Table with default configuration. -/
def NewTable (tableName : String) : Table :=
  { TableName := tableName, RefIndexName := "ref-index",
    KeyDelimiter := gs ("#"), LabelDelimiter := gs ("/"), PaginationTTL := dayNS }

/-- MaxBatchSize is the maximum number of items allowed in a DynamoDB batch
operation. -/
def MaxBatchSize : Nat := 25

/-- A put-item request. -/
structure PutItemInput where
  TableName : String
  Item : Item

/-- A get-item request. -/
structure GetItemInput where
  TableName : String
  Key : Item

/-- A delete-item request. -/
structure DeleteItemInput where
  TableName : String
  Key : Item

/-- A batch-write request: table name to write requests (each a put of one
item). -/
structure BatchWriteItemInput where
  RequestItems : List (String × List Item)

/-- The option-function list `Table.MarshalPut` hands to
`MarshalRelationships`: table delimiters, then the caller overrides, then
`SkipRefs = true`. -/
def Table.putOptions (t : Table)
    (optFns : List (MarshalOptions → MarshalOptions)) :
    List (MarshalOptions → MarshalOptions) :=
  [fun mo => { MarshalOptions.apply
      { mo with KeyDelimiter := t.KeyDelimiter, LabelDelimiter := t.LabelDelimiter }
      optFns with SkipRefs := true }]

/-- MarshalPut marshals the input into a put-item request carrying the
entity's self relationship only. -/
def Table.MarshalPut (t : Table) (e : Entity)
    (optFns : List (MarshalOptions → MarshalOptions)) (now : Time) :
    Except GoError PutItemInput :=
  match MarshalRelationships e (t.putOptions optFns) now with
  | .error err => .error (.wrap ("failed to marshal relationships") err)
  | .ok rels =>
    match rels with
    | [rel] => .ok { TableName := t.TableName, Item := marshalRelItem rel }
    | _ => .error (.msg ("expected exactly 1 relationship for put"))

/-- The option-function list `Table.MarshalBatch` hands to
`MarshalRelationships`: table delimiters, then the caller overrides, then
`SkipRefs = false`. -/
def Table.batchOptions (t : Table)
    (optFns : List (MarshalOptions → MarshalOptions)) :
    List (MarshalOptions → MarshalOptions) :=
  [fun mo => { MarshalOptions.apply
      { mo with KeyDelimiter := t.KeyDelimiter, LabelDelimiter := t.LabelDelimiter }
      optFns with SkipRefs := false }]

/-- The chunking loop of `Table.MarshalBatch`:
`for i := 0; i < len(relationships); i += MaxBatchSize` emitting
`relationships[i:min(i+MaxBatchSize, len)]`, driven by fuel (each step
advances `i` by at least one, so `length + 1` fuel always suffices). -/
def chunkLoop (rels : List Relationship) : Nat → Nat → List (List Relationship)
  | 0, _ => []
  | fuel + 1, i =>
    if i < rels.length then
      ((rels.drop i).take MaxBatchSize) :: chunkLoop rels fuel (i + MaxBatchSize)
    else []

/-- Wrap one chunk of relationships into a batch-write request against the
table. -/
def Table.mkBatch (t : Table) (chunk : List Relationship) : BatchWriteItemInput :=
  { RequestItems := [(t.TableName, chunk.map marshalRelItem)] }

/-- MarshalBatch marshals the input into multiple batch write put requests,
chunked in sizes of `MaxBatchSize` or less. -/
def Table.MarshalBatch (t : Table) (e : Entity)
    (optFns : List (MarshalOptions → MarshalOptions)) (now : Time) :
    Except GoError (List BatchWriteItemInput) :=
  match MarshalRelationships e (t.batchOptions optFns) now with
  | .error err => .error (.wrap ("failed to marshal relationships") err)
  | .ok rels => .ok ((chunkLoop rels (rels.length + 1) 0).map t.mkBatch)

/-- The options `Table.MarshalGet` and `Table.MarshalDelete` build before
invoking the entity's describe-self: table delimiters, caller overrides,
`SkipRefs = true`. -/
def Table.keyOptions (t : Table)
    (optFns : List (MarshalOptions → MarshalOptions)) (now : Time) : MarshalOptions :=
  newMarshalOptions now
    [fun mo => { MarshalOptions.apply
        { mo with KeyDelimiter := t.KeyDelimiter, LabelDelimiter := t.LabelDelimiter }
        optFns with SkipRefs := true }]

/-- MarshalGet marshals the input into a get-item request keyed by the self
relationship key. -/
def Table.MarshalGet (t : Table) (m : Marshaler)
    (optFns : List (MarshalOptions → MarshalOptions)) (now : Time) :
    Except GoError GetItemInput :=
  let marshalOpts := t.keyOptions optFns now
  match m.marshalSelf marshalOpts with
  | .error err => .error (.wrap ("failed to marshal self") err)
  | .ok o =>
    let sourceKey := o.sourceKey
    .ok { TableName := t.TableName,
          Key := [(AttributeNameSource, .S sourceKey), (AttributeNameTarget, .S sourceKey)] }

/-- MarshalDelete marshals the input into a delete-item request keyed by the
self relationship key. -/
def Table.MarshalDelete (t : Table) (m : Marshaler)
    (optFns : List (MarshalOptions → MarshalOptions)) (now : Time) :
    Except GoError DeleteItemInput :=
  let marshalOpts := t.keyOptions optFns now
  match m.marshalSelf marshalOpts with
  | .error err => .error (.wrap ("failed to marshal self") err)
  | .ok o =>
    let sourceKey := o.sourceKey
    .ok { TableName := t.TableName,
          Key := [(AttributeNameSource, .S sourceKey), (AttributeNameTarget, .S sourceKey)] }

/-- A key condition expression: equality on a key attribute, conjunction with
a caller-supplied condition, or an opaque caller-supplied condition. -/
inductive KeyCond where
  | eq (attr : String) (value : GoStr) : KeyCond
  | and (left right : KeyCond) : KeyCond
  | opaque0 (tag : String) : KeyCond
deriving DecidableEq

/-- An opaque caller-supplied filter condition. -/
abbrev CondExpr := String

/-- The abstract query request the query marshalers build
(`dynamodb.QueryInput` restricted to the fields the library sets). -/
structure QueryInput where
  KeyConditionExpression : Option KeyCond
  FilterExpression : Option CondExpr
  ScanIndexForward : Bool
  Limit : Option Int
  ExclusiveStartKey : Option Item
  TableName : Option String
  IndexName : Option String

/-- QueryList searches the table for collections of entities with a specific
label. -/
structure QueryList where
  Label : GoStr
  RefSortFilter : Option KeyCond
  ConditionFilter : Option CondExpr
  Limit : Int
  StartKey : Option Item
  SortDescending : Bool

/-- MarshalQuery for QueryList: key condition `label == q.Label`, optionally
conjoined with the ref sort filter; filter expression only when a condition
filter is set. -/
def QueryList.MarshalQuery (q : QueryList) (_opts : MarshalOptions) :
    Except GoError QueryInput :=
  let keyCondition := KeyCond.eq AttributeNameLabel q.Label
  let keyCondition :=
    match q.RefSortFilter with
    | some f => KeyCond.and keyCondition f
    | none => keyCondition
  .ok { KeyConditionExpression := some keyCondition,
        FilterExpression := q.ConditionFilter,
        ScanIndexForward := !q.SortDescending,
        Limit := if q.Limit > 0 then some q.Limit else none,
        ExclusiveStartKey := q.StartKey,
        TableName := none, IndexName := none }

/-- QueryEntity searches within an entity's partition for key relationships. -/
structure QueryEntity where
  Source : Marshaler
  TargetFilter : Option KeyCond
  ConditionFilter : Option CondExpr
  Limit : Int
  StartKey : Option Item
  SortDescending : Bool

/-- MarshalQuery for QueryEntity.  The source entity describes itself into a
copy of the options with relationship marshaling suppressed; the Go code then
computes `sourceKey` from the original, unmodified options (`opts.sourceKey()`),
so the result of the describe-self call is discarded. -/
def QueryEntity.MarshalQuery (q : QueryEntity) (opts : MarshalOptions) :
    Except GoError QueryInput :=
  let sourceOpts := { opts with SkipRefs := true }
  match q.Source.marshalSelf sourceOpts with
  | .error err => .error (.wrap ("failed to marshal source") err)
  | .ok _ =>
    let sourceKey := opts.sourceKey
    let keyCondition := KeyCond.eq AttributeNameSource sourceKey
    let keyCondition :=
      match q.TargetFilter with
      | some f => KeyCond.and keyCondition f
      | none => keyCondition
    .ok { KeyConditionExpression := some keyCondition,
          FilterExpression := q.ConditionFilter,
          ScanIndexForward := !q.SortDescending,
          Limit := if q.Limit > 0 then some q.Limit else none,
          ExclusiveStartKey := q.StartKey,
          TableName := none, IndexName := none }

/-- The two QueryMarshaler implementations. -/
inductive QueryReq where
  | entity (q : QueryEntity) : QueryReq
  | list (q : QueryList) : QueryReq

/-- Dispatch MarshalQuery over the two implementations. -/
def QueryReq.MarshalQuery : QueryReq → MarshalOptions → Except GoError QueryInput
  | .entity q, opts => q.MarshalQuery opts
  | .list q, opts => q.MarshalQuery opts

/-- UseRefIndex: QueryList targets the ref index, QueryEntity the main table. -/
def QueryReq.UseRefIndex : QueryReq → Bool
  | .entity _ => false
  | .list _ => true

/-- Table.MarshalQuery: build options with the table key delimiter and caller
overrides, marshal the query, then stamp the table name and — for ref-index
queries — the index name. -/
def Table.MarshalQuery (t : Table) (q : QueryReq)
    (optFns : List (MarshalOptions → MarshalOptions)) (now : Time) :
    Except GoError QueryInput :=
  let marshalOpts := newMarshalOptions now
    [fun mo => MarshalOptions.apply { mo with KeyDelimiter := t.KeyDelimiter } optFns]
  match q.MarshalQuery marshalOpts with
  | .error err => .error (.wrap ("failed to marshal query") err)
  | .ok input =>
    let input := { input with TableName := some t.TableName }
    .ok (if q.UseRefIndex then { input with IndexName := some t.RefIndexName } else input)

/-- Decode an attribute value into a Go string field (errors on a non-string
attribute, as the reflection-based decoder does). -/
def unmarshalGoStr : AttributeValue → Except GoError GoStr
  | .S s => .ok s
  | _ => .error (.msg ("unmarshal type error: string"))

/-- Decode an attribute value into a `time.Time` field (default RFC3339
string encoding). -/
def unmarshalTime : AttributeValue → Except GoError Time
  | .T t => .ok t
  | _ => .error (.msg ("unmarshal type error: time"))

/-- Decode an attribute value into a `unixtime`-tagged `time.Time` field
(number encoding). -/
def unmarshalUnixTime : AttributeValue → Except GoError Time
  | .N n => .ok n
  | _ => .error (.msg ("unmarshal type error: unixtime"))

/-- Decode an optional struct field from an item: a missing attribute leaves
the zero value, a present one must decode. -/
def decodeField {α : Type} (item : Item) (key : String)
    (dec : AttributeValue → Except GoError α) (zero : α) : Except GoError α :=
  match item.lookup key with
  | none => .ok zero
  | some av => dec av

/-- The `attributevalue.UnmarshalMap` decoding of an item into a Relationship:
each tagged field is decoded when present, the untyped `data` field absorbs
whatever attribute is stored. -/
def unmarshalRelationship (item : Item) : Except GoError Relationship :=
  match decodeField item AttributeNameSource unmarshalGoStr [] with
  | .error e => .error e
  | .ok source =>
  match decodeField item AttributeNameTarget unmarshalGoStr [] with
  | .error e => .error e
  | .ok target =>
  match decodeField item AttributeNameLabel unmarshalGoStr [] with
  | .error e => .error e
  | .ok label =>
  match decodeField item "created_at" unmarshalTime 0 with
  | .error e => .error e
  | .ok created =>
  match decodeField item "updated_at" unmarshalTime 0 with
  | .error e => .error e
  | .ok updated =>
  match decodeField item "expires" unmarshalUnixTime 0 with
  | .error e => .error e
  | .ok expires =>
  match decodeField item "gsi1_sk" unmarshalGoStr [] with
  | .error e => .error e
  | .ok gsi1 =>
    .ok { Source := source, Target := target, Label := label,
          CreatedAt := created, UpdatedAt := updated, Expires := expires,
          Data := (item.lookup "data").getD .Null, GSI1SK := gsi1 }

/-- The typed output slot `UnmarshalSelf` decodes the `data` attribute into:
a decoder for the payload (which may fail on a shape mismatch) and the
optional `Unmarshaler` hook of the output type. -/
structure UnmarshalTarget (α : Type) where
  decodeData : AttributeValue → Except GoError α
  selfHook : Option (Relationship → Except GoError Unit)

/-- UnmarshalSelf extracts the data out of the item into the target, then
unmarshals the entire item to a Relationship; the decoded payload is returned
alongside the relationship (modelling the in-place write through `out`). -/
def UnmarshalSelf {α : Type} (item : Item) (tgt : UnmarshalTarget α) :
    Except GoError (Relationship × α) :=
  match unmarshalRelationship item with
  | .error e => .error (.wrap ("failed to unmarshal relationship") e)
  | .ok rel =>
    match item.lookup "data" with
    | none => .error (.msg ("data attribute not found"))
    | some data =>
      match tgt.decodeData data with
      | .error e => .error (.wrap ("failed to unmarshal data") e)
      | .ok a =>
        match tgt.selfHook with
        | none => .ok (rel, a)
        | some hook =>
          match hook rel with
          | .error e => .error (.wrap ("failed to unmarshal self") e)
          | .ok _ => .ok (rel, a)

/-- UnmarshalTableKey extracts and unmarshals the source and target keys from
an item; both must be present, and both decode errors are joined. -/
def UnmarshalTableKey (item : Item) : Except GoError (GoStr × GoStr) :=
  match item.lookup AttributeNameSource, item.lookup AttributeNameTarget with
  | some hk, some sk =>
    (match unmarshalGoStr hk, unmarshalGoStr sk with
     | .ok source, .ok target => .ok (source, target)
     | .error e, .ok _ => .error (.join1 e)
     | .ok _, .error e => .error (.join1 e)
     | .error e1, .error e2 => .error (.join2 e1 e2))
  | _, _ => .error (.msg ("source and target keys not found"))

/-- Check that an optional field of a decoded `Ref` struct has the expected
string shape. -/
def refFieldOk (fields : List (String × AttributeValue)) (key : String) : Bool :=
  match fields.lookup key with
  | none => true
  | some (.S _) => true
  | some _ => false

/-- Decoding the `data` attribute of a non-self record into the `Ref`
descriptor struct: the attribute must be a map whose known fields are
strings. -/
def decodeRefStruct : AttributeValue → Except GoError Ref
  | .M fields =>
    if refFieldOk fields "Name" && refFieldOk fields "SourceID" && refFieldOk fields "TargetID" then
      .ok { Name := (match fields.lookup "Name" with | some (.S s) => s | _ => []),
            SourceID := (match fields.lookup "SourceID" with | some (.S s) => s | _ => []),
            TargetID := (match fields.lookup "TargetID" with | some (.S s) => s | _ => []) }
    else .error (.msg ("unmarshal type error: Ref field"))
  | _ => .error (.msg ("unmarshal type error: Ref"))

/-- The output entity of `UnmarshalEntity` (a `RefUnmarshaler`): how its own
payload decodes from the self record's data, and its absorb-relationship
hook.  The `Unmarshaler` hook is not modelled here because `UnmarshalEntity`
passes a pointer to an interface to `UnmarshalSelf`, and a pointer-to-interface
type never satisfies the `Unmarshaler` type assertion. -/
structure RefTarget where
  decodeData : AttributeValue → Except GoError Unit
  unmarshalRef : GoStr → GoStr → Relationship → Except GoError Unit

/-- The decode target of a self record in `UnmarshalEntity`: the entity's
payload decoder, no self hook. -/
def entityDataTarget (out : RefTarget) : UnmarshalTarget Unit :=
  ⟨out.decodeData, none⟩

/-- The decode target of a non-self record in `UnmarshalEntity`: the `Ref`
struct decoder, no self hook. -/
def refDataTarget : UnmarshalTarget Unit :=
  ⟨fun av => (decodeRefStruct av).map (fun _ => ()), none⟩

/-- Processing of one item inside the `UnmarshalEntity` loop: extract the
table key, dispatch on self versus non-self, decode, split the label of a
non-self record and hand it to the absorb-relationship hook. -/
def processItem (mo : MarshalOptions) (out : RefTarget) (item : Item) :
    Except GoError Relationship :=
  match UnmarshalTableKey item with
  | .error e => .error (.wrap ("failed to unmarshal table key") e)
  | .ok (source, target) =>
    if source = target then
      match UnmarshalSelf item (entityDataTarget out) with
      | .error e => .error (.wrap ("failed to unmarshal self") e)
      | .ok (rel, _) => .ok rel
    else
      match UnmarshalSelf item refDataTarget with
      | .error e => .error (.wrap ("failed to unmarshal relationship") e)
      | .ok (rel, _) =>
        match mo.splitLabel rel with
        | .error _ => .error (.msgArg ("invalid label format") rel.Label)
        | .ok (_, id, name) =>
          match out.unmarshalRef name id rel with
          | .error e => .error (.wrapArg ("failed to unmarshal ref") name e)
          | .ok _ => .ok rel

/-- The record loop of `UnmarshalEntity`, accumulating decoded relationships
in input order. -/
def unmarshalEntityLoop (mo : MarshalOptions) (out : RefTarget) :
    List Item → Except GoError (List Relationship)
  | [] => .ok []
  | item :: rest =>
    match processItem mo out item with
    | .error e => .error e
    | .ok rel =>
      match unmarshalEntityLoop mo out rest with
      | .error e => .error e
      | .ok rels => .ok (rel :: rels)

/-- UnmarshalEntity unmarshals each item into the output entity: an empty
record set is the distinguished not-found condition; self records are applied
through `UnmarshalSelf` and non-self records through the
absorb-relationship hook. -/
def UnmarshalEntity (items : List Item) (out : RefTarget)
    (optFns : List (MarshalOptions → MarshalOptions)) (now : Time) :
    Except GoError (List Relationship) :=
  if items.isEmpty then .error .itemNotFound
  else unmarshalEntityLoop (newMarshalOptions now optFns) out items

/-- The record loop of `UnmarshalList` (the index only feeds the error
message). -/
def unmarshalListLoop {α : Type} (tgt : UnmarshalTarget α) :
    Nat → List Item → Except GoError (List Relationship)
  | _, [] => .ok []
  | i, item :: rest =>
    match UnmarshalSelf item tgt with
    | .error e => .error (.wrap ("failed to unmarshal item") e)
    | .ok (rel, _) =>
      match unmarshalListLoop tgt (i + 1) rest with
      | .error e => .error e
      | .ok rels => .ok (rel :: rels)

/-- UnmarshalList calls UnmarshalSelf on each item, collecting the decoded
relationships in input order. -/
def UnmarshalList {α : Type} (tgt : UnmarshalTarget α) (items : List Item) :
    Except GoError (List Relationship) :=
  unmarshalListLoop tgt 0 items

/-- PageCursor represents the item stored in the table for a pagination
cursor: the cursor string and the gob-encoded continuation key. -/
structure PageCursorS where
  Cursor : GoStr
  Key : List Nat

/-- MarshalSelf of PageCursor: a "page" self-relationship whose id is the
cursor, with an unconditional 24-hour time-to-live and the cursor as ref sort
key. -/
def PageCursorS.MarshalSelf (p : PageCursorS) (opts : MarshalOptions) :
    Except GoError MarshalOptions :=
  .ok { opts with SourcePrefix := gs ("page"), SourceID := p.Cursor,
                  TargetPrefix := gs ("page"), TargetID := p.Cursor,
                  Label := gs ("page"), TimeToLive := dayNS, RefSortKey := p.Cursor }

/-- A PageCursor as a Marshaler. -/
def PageCursorS.marshaler (p : PageCursorS) : Marshaler :=
  ⟨p.MarshalSelf⟩

/-- The attribute-value encoding of a PageCursor payload. -/
def encodePageCursor (p : PageCursorS) : AttributeValue :=
  .M [("Cursor", .S p.Cursor), ("Key", .B p.Key)]

/-- A PageCursor as an Entity (it is not a RefMarshaler). -/
def PageCursorS.entity (p : PageCursorS) : Entity :=
  { marshalSelf := p.MarshalSelf, payload := encodePageCursor p, marshalRefs := none }

/-- Decoding the `data` attribute of a stored page cursor back into the
PageCursor struct. -/
def decodePageCursorData : AttributeValue → Except GoError PageCursorS
  | .M fields =>
    match fields.lookup "Cursor" with
    | some (.S cur) =>
      (match fields.lookup "Key" with
       | some (.B bytes) => .ok { Cursor := cur, Key := bytes }
       | none => .ok { Cursor := cur, Key := [] }
       | some _ => .error (.msg ("unmarshal type error: Key")))
    | none =>
      (match fields.lookup "Key" with
       | some (.B bytes) => .ok { Cursor := [], Key := bytes }
       | none => .ok { Cursor := [], Key := [] }
       | some _ => .error (.msg ("unmarshal type error: Key")))
    | some _ => .error (.msg ("unmarshal type error: Cursor"))
  | _ => .error (.msg ("unmarshal type error: PageCursor"))

/-- TablePaginator.PageCursor: store the last evaluated key as a "page"
self-relationship and hand back the generated cursor.  The store client, the
cursor generator and the gob encoder are passed as explicit functions; the
second component of the result is the list of put requests issued. -/
def TablePaginator.PageCursorOp (t : Table)
    (putResp : PutItemInput → Except GoError Unit)
    (genCursor : Except GoError GoStr)
    (gobEnc : Item → Except GoError (List Nat))
    (now : Time) (lastkey : Option Item) :
    Except GoError GoStr × List PutItemInput :=
  match lastkey with
  | none => (.ok [], [])
  | some l =>
    if l.isEmpty then (.ok [], [])
    else
      match genCursor with
      | .error e => (.error (.wrap ("failed to generate cursor") e), [])
      | .ok cursor =>
        match gobEnc l with
        | .error e => (.error (.wrap ("failed to encode last key") e), [])
        | .ok bytes =>
          let pageCursor : PageCursorS := { Cursor := cursor, Key := bytes }
          match t.MarshalPut pageCursor.entity
              [fun opts => { opts with TimeToLive := t.PaginationTTL }] now with
          | .error e => (.error (.wrap ("failed to marshal page cursor") e), [])
          | .ok putInput =>
            match putResp putInput with
            | .error e => (.error (.wrap ("failed to store page cursor") e), [putInput])
            | .ok _ => (.ok cursor, [putInput])

/-- TablePaginator.StartKey: resolve a cursor back into a continuation key by
fetching the "page" self-relationship; an absent record resolves to `none`
rather than an error.  The second component of the result is the list of get
requests issued. -/
def TablePaginator.StartKeyOp (t : Table)
    (getResp : GetItemInput → Except GoError (Option Item))
    (gobDec : List Nat → Except GoError Item)
    (now : Time) (cursor : GoStr) :
    Except GoError (Option Item) × List GetItemInput :=
  if cursor.isEmpty then (.ok none, [])
  else
    let pageCursor : PageCursorS := { Cursor := cursor, Key := [] }
    match t.MarshalGet pageCursor.marshaler [] now with
    | .error e => (.error (.wrap ("failed to marshal get request") e), [])
    | .ok getInput =>
      match getResp getInput with
      | .error e => (.error (.wrap ("failed to get page cursor") e), [getInput])
      | .ok none => (.ok none, [getInput])
      | .ok (some item) =>
        match UnmarshalSelf item ⟨decodePageCursorData, none⟩ with
        | .error e => (.error (.wrap ("failed to unmarshal page cursor") e), [getInput])
        | .ok (_, pc) =>
          if pc.Key.isEmpty then (.ok none, [getInput])
          else
            match gobDec pc.Key with
            | .error e => (.error (.wrap ("failed to decode last key") e), [getInput])
            | .ok keyData => (.ok (some keyData), [getInput])


/-- The describe-self of a concrete product entity (mirrors the `Product`
test entity). -/
def productSelf (id : GoStr) (opts : MarshalOptions) : Except GoError MarshalOptions :=
  .ok { opts with SourcePrefix := gs ("product"), SourceID := id,
                  TargetPrefix := gs ("product"), TargetID := id,
                  Label := gs ("product"), RefSortKey := gs ("electronics") }

/-- A concrete product marshaler. -/
def productM (id : GoStr) : Marshaler :=
  ⟨productSelf id⟩

/-- The describe-self of a concrete order entity (mirrors the `Order` test
entity, without the timestamp overrides). -/
def orderSelf (id : GoStr) (opts : MarshalOptions) : Except GoError MarshalOptions :=
  .ok (opts.WithSelfTarget (gs ("order")) id)

/-- A concrete order marshaler. -/
def orderM (id : GoStr) : Marshaler :=
  ⟨orderSelf id⟩

/-- A concrete order entity with two product relationships in one named
group. -/
def orderEntity2 : Entity :=
  { marshalSelf := orderSelf (gs ("O1")),
    payload := .M [("id", .S (gs ("O1")))],
    marshalRefs := some
      ([RefCall.addMany (gs ("products")) [productM (gs ("P1")), productM (gs ("P2"))]], none) }

/-- A relationship record that only carries a label (for exercising the label
codec). -/
def relWithLabel (lbl : GoStr) : Relationship :=
  { Source := [], Target := [], Label := lbl, CreatedAt := 0, UpdatedAt := 0,
    Expires := 0, Data := .Null, GSI1SK := [] }

lemma splitFirst_singleton_none {c : Char} : ∀ {s : GoStr}, c ∉ s → splitFirst [c] s = none
  | [], _ => rfl
  | a :: rest, h => by
    have hne : ¬(c = a) := fun hca => h (hca ▸ List.mem_cons_self a rest)
    have hmem : c ∉ rest := fun hm => h (List.mem_cons_of_mem a hm)
    simp only [splitFirst, List.isPrefixOf, Bool.and_true]
    rw [if_neg (by simpa using hne), splitFirst_singleton_none hmem]

lemma splitFirst_singleton_cons {c : Char} :
    ∀ {p : GoStr} (rest : GoStr), c ∉ p → splitFirst [c] (p ++ c :: rest) = some (p, rest)
  | [], rest, _ => by
    simp only [List.nil_append, splitFirst, List.isPrefixOf, Bool.and_true,
      beq_self_eq_true, if_true, List.length_cons, List.length_nil,
      List.drop_succ_cons, List.drop_zero]
  | a :: p, rest, h => by
    have hne : ¬(c = a) := fun hca => h (hca ▸ List.mem_cons_self a p)
    have hmem : c ∉ p := fun hm => h (List.mem_cons_of_mem a hm)
    simp only [List.cons_append, splitFirst, List.isPrefixOf, Bool.and_true,
      List.append_eq]
    rw [if_neg (by simpa using hne), splitFirst_singleton_cons rest hmem]

lemma goSplitNE_singleton_none {c : Char} {s : GoStr} (h : c ∉ s) :
    ∀ fuel, goSplitNE [c] fuel s = [s]
  | 0 => rfl
  | fuel + 1 => by
    simp only [goSplitNE, splitFirst_singleton_none h]

lemma goSplitNE_singleton_cons {c : Char} {p : GoStr} (rest : GoStr) (h : c ∉ p) (fuel : Nat) :
    goSplitNE [c] (fuel + 1) (p ++ c :: rest) = p :: goSplitNE [c] fuel rest := by
  simp only [goSplitNE, splitFirst_singleton_cons rest h]

lemma goSplit_three {c : Char} {p i n : GoStr} (hp : c ∉ p) (hi : c ∉ i) (hn : c ∉ n) :
    goSplit (p ++ [c] ++ i ++ [c] ++ n) [c] = [p, i, n] := by
  unfold goSplit
  rw [if_neg (by simp)]
  have hs : p ++ [c] ++ i ++ [c] ++ n = p ++ c :: (i ++ c :: n) := by simp
  rw [hs]
  have hl : (p ++ c :: (i ++ c :: n)).length + 1
      = ((p.length + i.length + n.length + 1) + 1) + 1 := by
    simp only [List.length_append, List.length_cons]
    omega
  rw [hl, goSplitNE_singleton_cons _ hp, goSplitNE_singleton_cons _ hi,
      goSplitNE_singleton_none hn]

lemma splitLabel_eq_of_label (o : MarshalOptions) (c : Char) (r : Relationship) (n : GoStr)
    (hd : o.LabelDelimiter = [c]) (hcp : c ∉ o.SourcePrefix) (hci : c ∉ o.SourceID)
    (hcn : c ∉ n)
    (hr : r.Label = o.SourcePrefix ++ o.LabelDelimiter ++ o.SourceID ++ o.LabelDelimiter ++ n) :
    o.splitLabel r = .ok (o.SourcePrefix, o.SourceID, n) := by
  unfold MarshalOptions.splitLabel
  rw [hr, hd, goSplit_three hcp hci hcn]

/-- The MarshalOptions of the C4 counterexample: source prefix `a/`, source
id `b`, label delimiter `//`. -/
def straddleMo : MarshalOptions :=
  { MarshalOptions.zero with
      SourcePrefix := gs ("a/"), SourceID := gs ("b"), LabelDelimiter := gs ("//") }

/-- C4: the round-trip law fails as stated.  With the two-character label
delimiter `//` and the non-empty parts `a/`, `b`, `c` — none of which
contains the delimiter — the label `a///b//c` built by `refLabel` splits
back into `(a, /b, c)`, not `(a/, b, c)`: the first delimiter occurrence
found straddles the boundary between the prefix and the delimiter. -/
theorem C4_roundtrip_counterexample :
    (gs ("a/") ≠ [] ∧ gs ("b") ≠ [] ∧ gs ("c") ≠ [])
    ∧ goContains (gs ("a/")) (gs ("//")) = false
    ∧ goContains (gs ("b")) (gs ("//")) = false
    ∧ goContains (gs ("c")) (gs ("//")) = false
    ∧ straddleMo.splitLabel (relWithLabel (straddleMo.refLabel (gs ("c"))))
        = .ok (gs ("a"), gs ("/b"), gs ("c"))
    ∧ (gs ("a"), gs ("/b"), gs ("c")) ≠ (gs ("a/"), gs ("b"), gs ("c")) := by
  refine ⟨by decide, by decide, by decide, by decide, by decide, by decide⟩

/-- C4 (amended): for a label delimiter that is a single character and
non-empty parts `p`, `id`, `n` that do not contain that character, splitting
the label built by `refLabel` on that same delimiter returns exactly
`(p, id, n)` with no error. -/
theorem C4_roundtrip_amended (mo : MarshalOptions) (c : Char) (p i n : GoStr)
    (hd : mo.LabelDelimiter = [c]) (hpre : mo.SourcePrefix = p) (hid : mo.SourceID = i)
    (_hp : p ≠ []) (_hi : i ≠ []) (_hn : n ≠ [])
    (hcp : c ∉ p) (hci : c ∉ i) (hcn : c ∉ n)
    (rel : Relationship) (hrel : rel.Label = mo.refLabel n) :
    mo.splitLabel rel = .ok (p, i, n) := by
  subst hpre hid
  exact splitLabel_eq_of_label mo c rel n hd hcp hci hcn hrel

/-- The MarshalOptions of the C4 witness: the default `/` delimiter. -/
def roundtripMo : MarshalOptions :=
  { MarshalOptions.zero with
      SourcePrefix := gs ("order"), SourceID := gs ("O1"), LabelDelimiter := gs ("/") }

/-- C4 witness: the amended round trip at the default single-character
delimiter on concrete parts. -/
theorem C4_roundtrip_amended_witness :
    roundtripMo.splitLabel (relWithLabel (roundtripMo.refLabel (gs ("products"))))
      = .ok (gs ("order"), gs ("O1"), gs ("products")) :=
  C4_roundtrip_amended roundtripMo '/' (gs ("order")) (gs ("O1")) (gs ("products"))
    (by decide) (by decide) (by decide) (by decide) (by decide) (by decide)
    (by decide) (by decide) (by decide) (relWithLabel (roundtripMo.refLabel (gs ("products")))) rfl

/-- The concrete QueryEntity used to exhibit the key-condition defect: its
source is the order entity `O1`. -/
def orderQueryEntity : QueryEntity :=
  { Source := orderM (gs ("O1")), TargetFilter := none, ConditionFilter := none,
    Limit := 0, StartKey := none, SortDescending := false }

/-- C1: the key condition of an entity query does not use the source
entity's composite key.  For the order entity `O1` (whose describe-self
succeeds and sets source prefix `order` and source id `O1`, i.e. composite
key `order#O1`), `Table.MarshalQuery` builds a key condition equating `hk`
with `#` — the composite key of the unmodified options — because
`QueryEntity.MarshalQuery` computes `opts.sourceKey()` from the original
options instead of the options its describe-self call just populated. -/
theorem C1_entity_query_key_condition :
    ∃ qi o,
      (NewTable "test-table").MarshalQuery (.entity orderQueryEntity) [] 0 = .ok qi
      ∧ (orderM (gs ("O1"))).marshalSelf
          { newMarshalOptions 0
              [fun mo => MarshalOptions.apply
                { mo with KeyDelimiter := (NewTable "test-table").KeyDelimiter } []]
            with SkipRefs := true } = .ok o
      ∧ o.sourceKey = gs ("order#O1")
      ∧ qi.KeyConditionExpression = some (KeyCond.eq AttributeNameSource (gs ("#")))
      ∧ gs ("#") ≠ gs ("order#O1") := by
  refine ⟨_, _, rfl, rfl, by decide, by decide, by decide⟩

/-- The table of the C2 scenario: pagination TTL configured to one hour. -/
def hourTable : Table :=
  { NewTable "t" with PaginationTTL := hourNS }

/-- The last evaluated key of the C2 scenario. -/
def lastKey1 : Item :=
  [(AttributeNameSource, .S (gs ("a")))]

/-- C2: the persisted cursor record ignores the configured pagination TTL.
With the table's pagination TTL set to one hour, storing a non-empty last
evaluated key at time 1000 produces a record that is indeed a "page"
self-relationship whose id is the generated cursor, but whose `expires`
attribute is `1000 + 24h`, not `1000 + 1h`: `PageCursor.MarshalSelf` resets
the time-to-live to its 24-hour default after the table-configured value has
been applied, so the configured TTL is dead. -/
theorem C2_page_cursor_ttl :
    ∃ pin,
      TablePaginator.PageCursorOp hourTable (fun _ => .ok ()) (.ok (gs ("CUR")))
          (fun _ => .ok [7]) 1000 (some lastKey1)
        = (.ok (gs ("CUR")), [pin])
      ∧ pin.Item.lookup AttributeNameSource = some (.S (gs ("page#CUR")))
      ∧ pin.Item.lookup AttributeNameTarget = some (.S (gs ("page#CUR")))
      ∧ pin.Item.lookup AttributeNameLabel = some (.S (gs ("page")))
      ∧ pin.Item.lookup "expires" = some (.N (1000 + dayNS))
      ∧ hourTable.PaginationTTL = hourNS
      ∧ (1000 + dayNS : Int) ≠ 1000 + hourNS := by
  refine ⟨_, rfl, rfl, rfl, rfl, rfl, rfl, by decide⟩

/-- C9: the pagination cursor store short-circuits on empty inputs and
absent records.  `PageCursor` with a nil or empty last evaluated key returns
the empty cursor without issuing a store write; `StartKey` with the empty
cursor returns a nil key without issuing a lookup; and `StartKey` with a
cursor whose record the store does not return resolves to nil, not an
error. -/
theorem C9_pagination_short_circuits :
    (∀ (t : Table) putResp genCursor gobEnc (now : Time),
        TablePaginator.PageCursorOp t putResp genCursor gobEnc now none = (.ok [], []))
    ∧ (∀ (t : Table) putResp genCursor gobEnc (now : Time),
        TablePaginator.PageCursorOp t putResp genCursor gobEnc now (some []) = (.ok [], []))
    ∧ (∀ (t : Table) getResp gobDec (now : Time),
        TablePaginator.StartKeyOp t getResp gobDec now [] = (.ok none, []))
    ∧ (∀ (t : Table) getResp gobDec (now : Time) (cursor : GoStr),
        cursor ≠ [] → (∀ g, getResp g = .ok none) →
        (TablePaginator.StartKeyOp t getResp gobDec now cursor).1 = .ok none) := by
  refine ⟨fun t p g e n => rfl, fun t p g e n => rfl, fun t g d n => rfl, ?_⟩
  intro t getResp gobDec now cursor hc hget
  cases cursor with
  | nil => exact absurd rfl hc
  | cons a l =>
    simp only [TablePaginator.StartKeyOp, List.isEmpty_cons, Bool.false_eq_true,
      if_false, Table.MarshalGet, PageCursorS.marshaler, PageCursorS.MarshalSelf, hget]

/-- C9 witness: the fourth conjunct applied to a concrete table, cursor and
store that finds nothing. -/
theorem C9_witness :
    (TablePaginator.StartKeyOp (NewTable "t") (fun _ => .ok none) (fun _ => .ok []) 0
        (gs ("c"))).1 = .ok none :=
  C9_pagination_short_circuits.2.2.2 (NewTable "t") (fun _ => .ok none) (fun _ => .ok [])
    0 (gs ("c")) (by decide) (fun g => rfl)

/-- The get-item request keyed by a self composite key on both key fields. -/
def selfGetInput (t : Table) (key : GoStr) : GetItemInput :=
  { TableName := t.TableName,
    Key := [(AttributeNameSource, .S key), (AttributeNameTarget, .S key)] }

/-- The delete-item request keyed by a self composite key on both key
fields. -/
def selfDeleteInput (t : Table) (key : GoStr) : DeleteItemInput :=
  { TableName := t.TableName,
    Key := [(AttributeNameSource, .S key), (AttributeNameTarget, .S key)] }

/-- C10: MarshalGet and MarshalDelete key the request by the source composite
key on both the partition and the sort key.  Whenever the entity's
describe-self succeeds with options `o`, the built request's key maps both
`hk` and `sk` to `o.sourceKey` — the target prefix and id the entity may have
set are ignored, so get and delete always address the self record. -/
theorem C10_get_delete_self_key (t : Table) (m : Marshaler)
    (optFns : List (MarshalOptions → MarshalOptions)) (now : Time) (o : MarshalOptions)
    (h : m.marshalSelf (t.keyOptions optFns now) = .ok o) :
    t.MarshalGet m optFns now = .ok (selfGetInput t o.sourceKey)
    ∧ t.MarshalDelete m optFns now = .ok (selfDeleteInput t o.sourceKey) := by
  constructor
  · simp only [Table.MarshalGet, h, selfGetInput]
  · simp only [Table.MarshalDelete, h, selfDeleteInput]

/-- C10 witness: the get and delete requests for a concrete order entity,
whose source composite key is `order#O1` even though the options also carry
a target. -/
theorem C10_witness :
    ∃ o, (orderM (gs ("O1"))).marshalSelf ((NewTable "t").keyOptions [] 0) = .ok o
      ∧ (NewTable "t").MarshalGet (orderM (gs ("O1"))) [] 0
          = .ok (selfGetInput (NewTable "t") o.sourceKey)
      ∧ o.sourceKey = gs ("order#O1") := by
  refine ⟨_, rfl, ?_, by decide⟩
  exact (C10_get_delete_self_key (NewTable "t") (orderM (gs ("O1"))) [] 0 _ rfl).1

lemma AddOne_err {r : RelationshipContext} {e : GoError} (h : r.err = some e)
    (name : GoStr) (m : Marshaler) : r.AddOne name m = r := by
  unfold RelationshipContext.AddOne
  rw [h]

lemma AddMany_err {r : RelationshipContext} {e : GoError} (h : r.err = some e)
    (name : GoStr) : ∀ ms : List Marshaler, r.AddMany name ms = r
  | [] => rfl
  | m :: rest => by
    simp only [RelationshipContext.AddMany, AddOne_err h name m, h]

lemma runCall_err {r : RelationshipContext} {e : GoError} (h : r.err = some e) :
    ∀ call : RefCall, r.runCall call = r
  | .addOne name m => AddOne_err h name m
  | .addMany name ms => AddMany_err h name ms

lemma runCalls_err {r : RelationshipContext} {e : GoError} (h : r.err = some e) :
    ∀ s : List RefCall, r.runCalls s = r
  | [] => rfl
  | c :: rest => by
    unfold RelationshipContext.runCalls
    rw [runCall_err h c, runCalls_err h rest]

lemma runCalls_append (s1 s2 : List RefCall) :
    ∀ r : RelationshipContext, r.runCalls (s1 ++ s2) = (r.runCalls s1).runCalls s2 := by
  induction s1 with
  | nil => intro r; rfl
  | cons c rest ih =>
    intro r
    simp only [List.cons_append, RelationshipContext.runCalls]
    exact ih (r.runCall c)

/-- C6: the relationship accumulator is fail-fast.  On any context that has
already recorded an error, AddOne and AddMany are no-ops (the context — its
records, options and error — is unchanged); and for an entity whose
`MarshalRefs` body is any call sequence whose first part has already failed
with error `e1`, the remaining calls change nothing and
`MarshalRelationships` returns exactly `e1` with no records. -/
theorem C6_fail_fast (ctx : RelationshipContext) (e0 : GoError) (hctx : ctx.err = some e0)
    (name : GoStr) (m : Marshaler) (ms : List Marshaler)
    (e : Entity) (s1 s2 : List RefCall)
    (optFns : List (MarshalOptions → MarshalOptions)) (now : Time)
    (o : MarshalOptions) (e1 : GoError)
    (hrm : e.marshalRefs = some (s1 ++ s2, none))
    (hself : e.marshalSelf (newMarshalOptions now optFns) = .ok o)
    (hskip : o.SkipRefs = false)
    (herr : (RelationshipContext.runCalls ⟨o.sourceKey, o, [], none⟩ s1).err = some e1) :
    ctx.AddOne name m = ctx
    ∧ ctx.AddMany name ms = ctx
    ∧ RelationshipContext.runCalls ⟨o.sourceKey, o, [], none⟩ (s1 ++ s2)
        = RelationshipContext.runCalls ⟨o.sourceKey, o, [], none⟩ s1
    ∧ MarshalRelationships e optFns now = .error e1 := by
  have happ : RelationshipContext.runCalls ⟨o.sourceKey, o, [], none⟩ (s1 ++ s2)
      = RelationshipContext.runCalls ⟨o.sourceKey, o, [], none⟩ s1 := by
    rw [runCalls_append, runCalls_err herr]
  refine ⟨AddOne_err hctx name m, AddMany_err hctx name ms, happ, ?_⟩
  simp only [MarshalRelationships, hself, hrm, hskip, Bool.false_eq_true, if_false,
    happ, herr]

/-- A marshaler whose describe-self always fails. -/
def badMarshaler : Marshaler :=
  ⟨fun _ => .error (.msg ("boom"))⟩

/-- An order entity whose relationship script fails on its only call. -/
def failingOrderEntity : Entity :=
  { marshalSelf := orderSelf (gs ("O1")),
    payload := .M [("id", .S (gs ("O1")))],
    marshalRefs := some ([RefCall.addOne (gs ("items")) badMarshaler], none) }

/-- A context that has already recorded an error. -/
def stoppedCtx : RelationshipContext :=
  ⟨[], MarshalOptions.zero, [], some (.msg ("stop"))⟩

/-- C6 witness: the fail-fast theorem applied to a stopped context and to a
concrete entity whose single AddOne call fails. -/
theorem C6_witness :
    stoppedCtx.AddOne (gs ("x")) badMarshaler = stoppedCtx
    ∧ stoppedCtx.AddMany (gs ("x")) [badMarshaler] = stoppedCtx
    ∧ RelationshipContext.runCalls
        ⟨((newMarshalOptions 0 []).WithSelfTarget (gs ("order")) (gs ("O1"))).sourceKey,
          (newMarshalOptions 0 []).WithSelfTarget (gs ("order")) (gs ("O1")), [], none⟩
        ([RefCall.addOne (gs ("items")) badMarshaler] ++ [])
      = RelationshipContext.runCalls
          ⟨((newMarshalOptions 0 []).WithSelfTarget (gs ("order")) (gs ("O1"))).sourceKey,
            (newMarshalOptions 0 []).WithSelfTarget (gs ("order")) (gs ("O1")), [], none⟩
          [RefCall.addOne (gs ("items")) badMarshaler]
    ∧ MarshalRelationships failingOrderEntity [] 0
        = .error (.wrapArg ("failed to marshal reference") (gs ("items")) (.msg ("boom"))) :=
  C6_fail_fast stoppedCtx (.msg ("stop")) rfl (gs ("x")) badMarshaler [badMarshaler]
    failingOrderEntity [RefCall.addOne (gs ("items")) badMarshaler] [] [] 0
    ((newMarshalOptions 0 []).WithSelfTarget (gs ("order")) (gs ("O1")))
    (.wrapArg ("failed to marshal reference") (gs ("items")) (.msg ("boom")))
    rfl rfl rfl rfl

/-- All related marshalers a script touches, in call order. -/
def scriptMarshalers : List RefCall → List Marshaler
  | [] => []
  | .addOne _ m :: rest => m :: scriptMarshalers rest
  | .addMany _ ms :: rest => ms ++ scriptMarshalers rest

/-- The group name under which each declared relationship is added, one entry
per relationship, in call order. -/
def scriptNames : List RefCall → List GoStr
  | [] => []
  | .addOne n _ :: rest => n :: scriptNames rest
  | .addMany n ms :: rest => ms.map (fun _ => n) ++ scriptNames rest

/-- The relationship record `AddOne` appends when the reference's
describe-self succeeds with options `o2` on a context with options `o` and
source `src`. -/
def builtRef (src : GoStr) (o o2 : MarshalOptions) (name : GoStr) : Relationship :=
  let refOpts := { o2 with SourceID := o.SourceID, SourcePrefix := o.SourcePrefix }
  let rel := NewRelationship
    (encodeRef { SourceID := o.SourceID, TargetID := refOpts.TargetID, Name := name }) refOpts
  { rel with Source := src, Label := refOpts.refLabel name }

lemma builtRef_label (src : GoStr) (o o2 : MarshalOptions) (name : GoStr) :
    (builtRef src o o2 name).Label
      = o.SourcePrefix ++ o2.LabelDelimiter ++ o.SourceID ++ o2.LabelDelimiter ++ name := by
  simp only [builtRef, MarshalOptions.refLabel]

lemma AddOne_ok (src : GoStr) (o o2 : MarshalOptions) (acc : List Relationship)
    (name : GoStr) (m : Marshaler) (h : m.marshalSelf o = .ok o2) :
    RelationshipContext.AddOne ⟨src, o, acc, none⟩ name m
      = ⟨src, o, acc ++ [builtRef src o o2 name], none⟩ := by
  simp only [RelationshipContext.AddOne, h, builtRef]

/-- The label shape of the records a relationship script produces. -/
def refLabelProp (o : MarshalOptions) (r : Relationship) (n : GoStr) : Prop :=
  r.Label = o.SourcePrefix ++ o.LabelDelimiter ++ o.SourceID ++ o.LabelDelimiter ++ n

lemma AddMany_ok (src : GoStr) (o : MarshalOptions) (name : GoStr) :
    ∀ (ms : List Marshaler) (acc : List Relationship),
      (∀ m ∈ ms, ∃ o2, m.marshalSelf o = .ok o2 ∧ o2.LabelDelimiter = o.LabelDelimiter) →
      ∃ newRefs, RelationshipContext.AddMany ⟨src, o, acc, none⟩ name ms
          = ⟨src, o, acc ++ newRefs, none⟩
        ∧ List.Forall₂ (refLabelProp o) newRefs (ms.map (fun _ => name)) := by
  intro ms
  induction ms with
  | nil =>
    intro acc _
    exact ⟨[], by simp [RelationshipContext.AddMany], .nil⟩
  | cons m rest ih =>
    intro acc h
    obtain ⟨o2, hm, hld⟩ := h m (List.mem_cons_self m rest)
    obtain ⟨nr, heq, hf⟩ := ih (acc ++ [builtRef src o o2 name])
      (fun m2 hm2 => h m2 (List.mem_cons_of_mem m hm2))
    refine ⟨builtRef src o o2 name :: nr, ?_, ?_⟩
    · simp only [RelationshipContext.AddMany, AddOne_ok src o o2 acc name m hm, heq]
      simp
    · exact .cons (by rw [refLabelProp, builtRef_label, hld]) hf

lemma runCalls_ok (src : GoStr) (o : MarshalOptions) :
    ∀ (script : List RefCall) (acc : List Relationship),
      (∀ m ∈ scriptMarshalers script,
        ∃ o2, m.marshalSelf o = .ok o2 ∧ o2.LabelDelimiter = o.LabelDelimiter) →
      ∃ newRefs, RelationshipContext.runCalls ⟨src, o, acc, none⟩ script
          = ⟨src, o, acc ++ newRefs, none⟩
        ∧ List.Forall₂ (refLabelProp o) newRefs (scriptNames script) := by
  intro script
  induction script with
  | nil =>
    intro acc _
    exact ⟨[], by simp [RelationshipContext.runCalls], .nil⟩
  | cons call rest ih =>
    intro acc h
    cases call with
    | addOne name m =>
      obtain ⟨o2, hm, hld⟩ := h m (List.mem_cons_self m (scriptMarshalers rest))
      obtain ⟨nr, heq, hf⟩ := ih (acc ++ [builtRef src o o2 name])
        (fun m2 hm2 => h m2 (List.mem_cons_of_mem m hm2))
      refine ⟨builtRef src o o2 name :: nr, ?_, ?_⟩
      · simp only [RelationshipContext.runCalls, RelationshipContext.runCall,
          AddOne_ok src o o2 acc name m hm, heq]
        simp
      · exact .cons (by rw [refLabelProp, builtRef_label, hld]) hf
    | addMany name ms =>
      obtain ⟨nr1, heq1, hf1⟩ := AddMany_ok src o name ms acc
        (fun m2 hm2 => h m2 (by simp [scriptMarshalers, hm2]))
      obtain ⟨nr2, heq2, hf2⟩ := ih (acc ++ nr1)
        (fun m2 hm2 => h m2 (by simp [scriptMarshalers, hm2]))
      refine ⟨nr1 ++ nr2, ?_, ?_⟩
      · simp only [RelationshipContext.runCalls, RelationshipContext.runCall, heq1, heq2]
        simp
      · simpa [scriptNames] using List.rel_append hf1 hf2

lemma forall2_label_split (o : MarshalOptions) (c : Char)
    (hd : o.LabelDelimiter = [c]) (hcp : c ∉ o.SourcePrefix) (hci : c ∉ o.SourceID) :
    ∀ {tail : List Relationship} {names : List GoStr},
      List.Forall₂ (refLabelProp o) tail names → (∀ n ∈ names, c ∉ n) →
      List.Forall₂ (fun r n => o.splitLabel r = .ok (o.SourcePrefix, o.SourceID, n))
        tail names := by
  intro tail names hf
  induction hf with
  | nil => intro _; exact .nil
  | @cons r n tl nl hr _ ih =>
    intro hn
    exact .cons
      (splitLabel_eq_of_label o c r n hd hcp hci (hn n (List.mem_cons_self n nl)) hr)
      (ih (fun n2 hn2 => hn n2 (List.mem_cons_of_mem n hn2)))

/-- C3: for an entity whose describe-self succeeds with options `o` (label
delimiter a single character `c` not occurring in its source prefix, source
id, or any group name), whose `MarshalRefs` body is a script of Add calls all
of whose related entities' describe-self calls succeed (preserving the label
delimiter), MarshalRelationships returns `1 + k` records where `k` is the
total number of declared relationships: the self record first, and splitting
the label of every following record on the label delimiter yields the
entity's source prefix, its source id, and the name of the group that added
the record. -/
theorem C3_relationship_count_and_labels (e : Entity) (script : List RefCall)
    (optFns : List (MarshalOptions → MarshalOptions)) (now : Time)
    (o : MarshalOptions) (c : Char)
    (hrm : e.marshalRefs = some (script, none))
    (hself : e.marshalSelf (newMarshalOptions now optFns) = .ok o)
    (hskip : o.SkipRefs = false)
    (hd : o.LabelDelimiter = [c])
    (hcp : c ∉ o.SourcePrefix) (hci : c ∉ o.SourceID)
    (hnames : ∀ n ∈ scriptNames script, c ∉ n)
    (hrefs : ∀ m ∈ scriptMarshalers script,
      ∃ o2, m.marshalSelf o = .ok o2 ∧ o2.LabelDelimiter = o.LabelDelimiter) :
    ∃ tail, MarshalRelationships e optFns now = .ok (NewRelationship e.payload o :: tail)
      ∧ tail.length = (scriptNames script).length
      ∧ List.Forall₂ (fun r n => o.splitLabel r = .ok (o.SourcePrefix, o.SourceID, n))
          tail (scriptNames script) := by
  obtain ⟨nr, heq, hf⟩ := runCalls_ok o.sourceKey o script [] hrefs
  refine ⟨nr, ?_, hf.length_eq, forall2_label_split o c hd hcp hci hf hnames⟩
  simp only [MarshalRelationships, hself, hrm, hskip, Bool.false_eq_true, if_false, heq]
  simp

/-- The relationship script of the concrete order entity. -/
def orderScript : List RefCall :=
  [RefCall.addMany (gs ("products")) [productM (gs ("P1")), productM (gs ("P2"))]]

/-- The options the concrete order entity's describe-self produces under the
default configuration at time 0. -/
def orderO1Opts : MarshalOptions :=
  (newMarshalOptions 0 []).WithSelfTarget (gs ("order")) (gs ("O1"))

/-- C3 witness: the concrete order entity with two product relationships in
the `products` group yields one self record plus two records whose labels
split into `(order, O1, products)`. -/
theorem C3_witness :
    ∃ tail, MarshalRelationships orderEntity2 [] 0
        = .ok (NewRelationship orderEntity2.payload orderO1Opts :: tail)
      ∧ tail.length = (scriptNames orderScript).length
      ∧ List.Forall₂
          (fun r n => orderO1Opts.splitLabel r
            = .ok (orderO1Opts.SourcePrefix, orderO1Opts.SourceID, n))
          tail (scriptNames orderScript) := by
  have hrefs : ∀ m ∈ scriptMarshalers orderScript,
      ∃ o2, m.marshalSelf orderO1Opts = .ok o2
        ∧ o2.LabelDelimiter = orderO1Opts.LabelDelimiter := by
    intro m hm
    simp only [orderScript, scriptMarshalers, List.append_nil, List.mem_cons,
      List.not_mem_nil, or_false] at hm
    rcases hm with rfl | rfl
    · exact ⟨_, rfl, rfl⟩
    · exact ⟨_, rfl, rfl⟩
  exact C3_relationship_count_and_labels orderEntity2 orderScript [] 0 orderO1Opts '/'
    rfl rfl rfl (by decide) (by decide) (by decide) (by decide) hrefs

/-- Structural form of the batch chunking: repeatedly peel off the first
`MaxBatchSize` records. -/
def chunks : List Relationship → List (List Relationship)
  | [] => []
  | x :: xs => (x :: xs).take MaxBatchSize :: chunks ((x :: xs).drop MaxBatchSize)
termination_by l => l.length
decreasing_by simp [MaxBatchSize]; omega

lemma chunks_nil : chunks [] = [] := by
  rw [chunks]

lemma chunks_cons_eq (l : List Relationship) (h : l ≠ []) :
    chunks l = l.take MaxBatchSize :: chunks (l.drop MaxBatchSize) := by
  cases l with
  | nil => exact absurd rfl h
  | cons x xs => rw [chunks]

lemma chunkLoop_eq_chunks (rels : List Relationship) :
    ∀ (fuel i : Nat), rels.length + 1 ≤ fuel + i →
      chunkLoop rels fuel i = chunks (rels.drop i) := by
  intro fuel
  induction fuel with
  | zero =>
    intro i h
    rw [chunkLoop, List.drop_eq_nil_of_le (by omega), chunks]
  | succ fuel ih =>
    intro i h
    rw [chunkLoop]
    by_cases hi : i < rels.length
    · rw [if_pos hi, ih (i + MaxBatchSize) (by simp only [MaxBatchSize] at *; omega),
        chunks_cons_eq (rels.drop i)
          (by simp only [ne_eq, List.drop_eq_nil_iff, not_le]; omega),
        List.drop_drop]
    · rw [if_neg hi, List.drop_eq_nil_of_le (by omega), chunks]

lemma chunks_length (l : List Relationship) :
    (chunks l).length = (l.length + 24) / 25 := by
  induction l using chunks.induct with
  | case1 => rw [chunks_nil]; rfl
  | case2 x xs ih =>
    rw [chunks_cons_eq (x :: xs) (by simp)]
    simp only [List.length_cons, List.length_drop, List.length_take, MaxBatchSize] at ih ⊢
    rw [ih]
    omega

lemma chunks_size_le (l : List Relationship) :
    ∀ b ∈ chunks l, b.length ≤ MaxBatchSize := by
  induction l using chunks.induct with
  | case1 => intro b hb; rw [chunks_nil] at hb; cases hb
  | case2 x xs ih =>
    intro b hb
    rw [chunks_cons_eq (x :: xs) (by simp)] at hb
    rcases List.mem_cons.mp hb with rfl | hb2
    · simp
    · exact ih b hb2

lemma chunks_flatten (l : List Relationship) : (chunks l).flatten = l := by
  induction l using chunks.induct with
  | case1 => rw [chunks_nil]; rfl
  | case2 x xs ih =>
    rw [chunks_cons_eq (x :: xs) (by simp)]
    simp only [List.flatten_cons, ih, List.take_append_drop]

/-- C5: batch chunking.  Whenever marshaling the entity (with the option
functions MarshalBatch itself uses) yields the record list `rels`,
MarshalBatch returns exactly `ceil(|rels| / 25)` batch-write inputs, every
batch carries at most 25 write requests, and concatenating all the batches'
items in order reproduces the marshaled encodings of the records in their
original order. -/
theorem C5_batch_chunking (t : Table) (e : Entity)
    (optFns : List (MarshalOptions → MarshalOptions)) (now : Time)
    (rels : List Relationship)
    (h : MarshalRelationships e (t.batchOptions optFns) now = .ok rels) :
    ∃ batches, t.MarshalBatch e optFns now = .ok batches
      ∧ batches.length = (rels.length + 24) / 25
      ∧ (∀ b ∈ batches, ∀ pr ∈ b.RequestItems, pr.2.length ≤ MaxBatchSize)
      ∧ (batches.map (fun b => (b.RequestItems.map Prod.snd).flatten)).flatten
          = rels.map marshalRelItem := by
  have hloop : chunkLoop rels (rels.length + 1) 0 = chunks rels := by
    rw [chunkLoop_eq_chunks rels (rels.length + 1) 0 (by omega), List.drop_zero]
  refine ⟨(chunks rels).map t.mkBatch, ?_, ?_, ?_, ?_⟩
  · simp only [Table.MarshalBatch, h, hloop]
  · simp only [List.length_map, chunks_length]
  · intro b hb pr hpr
    obtain ⟨ch, hch, rfl⟩ := List.mem_map.mp hb
    simp only [Table.mkBatch, List.mem_singleton] at hpr
    subst hpr
    simp only [List.length_map]
    exact chunks_size_le rels ch hch
  · rw [List.map_map]
    have hfun : ((fun b => (b.RequestItems.map Prod.snd).flatten) ∘ t.mkBatch)
        = fun ch => ch.map marshalRelItem := by
      funext ch
      simp [Table.mkBatch]
    rw [hfun]
    rw [← List.map_flatten, chunks_flatten]

/-- C5 witness: the concrete order entity marshals to three records, which
fit in a single batch of three write requests. -/
theorem C5_witness :
    ∃ batches, (NewTable "t").MarshalBatch orderEntity2 [] 0 = .ok batches
      ∧ batches.length = 1
      ∧ (∀ b ∈ batches, ∀ pr ∈ b.RequestItems, pr.2.length ≤ MaxBatchSize) := by
  obtain ⟨bs, h1, h2, h3, _⟩ := C5_batch_chunking (NewTable "t") orderEntity2 [] 0 _ rfl
  refine ⟨bs, h1, ?_, h3⟩
  rw [h2]
  rfl

lemma UnmarshalSelf_rel {α : Type} {item : Item} {tgt : UnmarshalTarget α}
    {rel : Relationship} {a : α} (h : UnmarshalSelf item tgt = .ok (rel, a)) :
    unmarshalRelationship item = .ok rel := by
  unfold UnmarshalSelf at h
  cases hr : unmarshalRelationship item with
  | error e => rw [hr] at h; simp at h
  | ok rel2 =>
    rw [hr] at h
    repeat' split at h
    all_goals simp_all

lemma unmarshalRelationship_label {item : Item} {rel : Relationship} {lbl : GoStr}
    (h : unmarshalRelationship item = .ok rel)
    (hlbl : item.lookup AttributeNameLabel = some (.S lbl)) : rel.Label = lbl := by
  unfold unmarshalRelationship at h
  rw [show decodeField item AttributeNameLabel unmarshalGoStr [] = .ok lbl by
    unfold decodeField; rw [hlbl]; rfl] at h
  repeat' split at h
  all_goals try simp_all
  all_goals (subst h; rfl)

lemma processItem_ne_notFound {mo : MarshalOptions} {out : RefTarget} {item : Item}
    {e : GoError} (h : processItem mo out item = .error e) : e ≠ .itemNotFound := by
  unfold processItem at h
  repeat' split at h
  all_goals try simp_all
  all_goals (intro hc; subst hc; exact GoError.noConfusion h)

lemma processItem_rel {mo : MarshalOptions} {out : RefTarget} {item : Item}
    {rel : Relationship} (h : processItem mo out item = .ok rel) :
    unmarshalRelationship item = .ok rel := by
  unfold processItem at h
  cases hk : UnmarshalTableKey item with
  | error e => rw [hk] at h; simp at h
  | ok st =>
    obtain ⟨s, t⟩ := st
    rw [hk] at h
    dsimp only at h
    by_cases hst : s = t
    · rw [if_pos hst] at h
      cases hu : UnmarshalSelf item (entityDataTarget out) with
      | error e => rw [hu] at h; simp at h
      | ok p =>
        obtain ⟨rel2, a⟩ := p
        rw [hu] at h
        dsimp only at h
        simp only [Except.ok.injEq] at h
        subst h
        exact UnmarshalSelf_rel hu
    · rw [if_neg hst] at h
      cases hu : UnmarshalSelf item refDataTarget with
      | error e => rw [hu] at h; simp at h
      | ok p =>
        obtain ⟨rel2, a⟩ := p
        rw [hu] at h
        dsimp only at h
        cases hsl : mo.splitLabel rel2 with
        | error e => rw [hsl] at h; simp at h
        | ok tr =>
          obtain ⟨p1, p2, p3⟩ := tr
          rw [hsl] at h
          dsimp only at h
          cases hur : out.unmarshalRef p3 p2 rel2 with
          | error e => rw [hur] at h; simp at h
          | ok u =>
            rw [hur] at h
            dsimp only at h
            simp only [Except.ok.injEq] at h
            subst h
            exact UnmarshalSelf_rel hu

lemma entityLoop_ne_notFound {mo : MarshalOptions} {out : RefTarget} :
    ∀ {items : List Item} {e : GoError},
      unmarshalEntityLoop mo out items = .error e → e ≠ .itemNotFound := by
  intro items
  induction items with
  | nil => intro e h; simp [unmarshalEntityLoop] at h
  | cons item rest ih =>
    intro e h
    unfold unmarshalEntityLoop at h
    cases hp : processItem mo out item with
    | error e2 =>
      rw [hp] at h
      dsimp only at h
      simp only [Except.error.injEq] at h
      subst h
      exact processItem_ne_notFound hp
    | ok rel =>
      rw [hp] at h
      dsimp only at h
      cases hl : unmarshalEntityLoop mo out rest with
      | error e2 =>
        rw [hl] at h
        simp only [Except.error.injEq] at h
        subst h
        exact ih hl
      | ok rels => rw [hl] at h; simp at h

lemma UnmarshalTableKey_ok {item : Item} {s t : GoStr}
    (hhk : item.lookup AttributeNameSource = some (.S s))
    (hsk : item.lookup AttributeNameTarget = some (.S t)) :
    UnmarshalTableKey item = .ok (s, t) := by
  unfold UnmarshalTableKey
  rw [hhk, hsk]
  rfl

lemma processItem_missing_key {mo : MarshalOptions} {out : RefTarget} {item : Item}
    (h : item.lookup AttributeNameSource = none ∨ item.lookup AttributeNameTarget = none) :
    ∃ e, processItem mo out item = .error e := by
  have hk : UnmarshalTableKey item = .error (.msg ("source and target keys not found")) := by
    unfold UnmarshalTableKey
    rcases h with h | h
    · rw [h]
    · rw [h]
      cases item.lookup AttributeNameSource <;> rfl
  refine ⟨.wrap ("failed to unmarshal table key") (.msg ("source and target keys not found")), ?_⟩
  unfold processItem
  rw [hk]

lemma length_two_shape {l : List GoStr} (h : l.length = 2) : ∃ a b, l = [a, b] := by
  cases l with
  | nil => simp at h
  | cons a l2 =>
    cases l2 with
    | nil => simp at h
    | cons b l3 =>
      cases l3 with
      | nil => exact ⟨a, b, rfl⟩
      | cons c l4 => simp at h

lemma splitLabel_two_error {mo : MarshalOptions} {rel : Relationship}
    (h : (goSplit rel.Label mo.LabelDelimiter).length = 2) :
    mo.splitLabel rel = .error (.msg ("invalid label length; should be 1 or 3")) := by
  obtain ⟨a, b, hab⟩ := length_two_shape h
  unfold MarshalOptions.splitLabel
  rw [hab]

lemma processItem_bad_label {mo : MarshalOptions} {out : RefTarget} {item : Item}
    {s t lbl : GoStr}
    (hhk : item.lookup AttributeNameSource = some (.S s))
    (hsk : item.lookup AttributeNameTarget = some (.S t))
    (hst : s ≠ t)
    (hlbl : item.lookup AttributeNameLabel = some (.S lbl))
    (hsplit : (goSplit lbl mo.LabelDelimiter).length = 2) :
    ∃ e, processItem mo out item = .error e := by
  unfold processItem
  rw [UnmarshalTableKey_ok hhk hsk]
  dsimp only
  rw [if_neg hst]
  cases hu : UnmarshalSelf item refDataTarget with
  | error e => exact ⟨_, rfl⟩
  | ok p =>
    obtain ⟨rel, a⟩ := p
    have hrl : rel.Label = lbl := unmarshalRelationship_label (UnmarshalSelf_rel hu) hlbl
    dsimp only
    rw [splitLabel_two_error (by rw [hrl]; exact hsplit)]
    exact ⟨_, rfl⟩

lemma entityLoop_error_of_mem {mo : MarshalOptions} {out : RefTarget} :
    ∀ {items : List Item} {it : Item}, it ∈ items →
      (∃ e0, processItem mo out it = .error e0) →
      ∃ e, unmarshalEntityLoop mo out items = .error e := by
  intro items
  induction items with
  | nil => intro it h; cases h
  | cons a rest ih =>
    intro it hmem hbad
    unfold unmarshalEntityLoop
    cases hp : processItem mo out a with
    | error e2 => exact ⟨e2, rfl⟩
    | ok rel =>
      rcases List.mem_cons.mp hmem with rfl | hrest
      · obtain ⟨e0, he⟩ := hbad
        rw [hp] at he
        cases he
      · obtain ⟨e, he⟩ := ih hrest hbad
        rw [he]
        exact ⟨e, rfl⟩

/-- C7: error handling of UnmarshalEntity.  The empty record list yields the
distinguished not-found sentinel; any list containing a record that misses
the `hk` or `sk` key field decodes to an error that is not the not-found
sentinel; and any list containing a non-self record (distinct string `hk`
and `sk` keys) whose label splits into two segments likewise decodes to an
error that is not the not-found sentinel. -/
theorem C7_unmarshal_entity_errors :
    (∀ (out : RefTarget) (optFns : List (MarshalOptions → MarshalOptions)) (now : Time),
        UnmarshalEntity [] out optFns now = .error .itemNotFound)
    ∧ (∀ (items : List Item) (out : RefTarget)
          (optFns : List (MarshalOptions → MarshalOptions)) (now : Time) (it : Item),
        it ∈ items →
        (it.lookup AttributeNameSource = none ∨ it.lookup AttributeNameTarget = none) →
        ∃ e, UnmarshalEntity items out optFns now = .error e ∧ e ≠ .itemNotFound)
    ∧ (∀ (items : List Item) (out : RefTarget)
          (optFns : List (MarshalOptions → MarshalOptions)) (now : Time)
          (it : Item) (s t lbl : GoStr),
        it ∈ items →
        it.lookup AttributeNameSource = some (.S s) →
        it.lookup AttributeNameTarget = some (.S t) →
        s ≠ t →
        it.lookup AttributeNameLabel = some (.S lbl) →
        (goSplit lbl (newMarshalOptions now optFns).LabelDelimiter).length = 2 →
        ∃ e, UnmarshalEntity items out optFns now = .error e ∧ e ≠ .itemNotFound) := by
  refine ⟨fun out optFns now => rfl, ?_, ?_⟩
  · intro items out optFns now it hmem hkey
    obtain ⟨e, he⟩ := entityLoop_error_of_mem hmem (processItem_missing_key hkey)
    refine ⟨e, ?_, entityLoop_ne_notFound he⟩
    unfold UnmarshalEntity
    cases items with
    | nil => cases hmem
    | cons a rest => exact he
  · intro items out optFns now it s t lbl hmem hhk hsk hst hlbl hsplit
    obtain ⟨e, he⟩ := entityLoop_error_of_mem hmem
      (processItem_bad_label hhk hsk hst hlbl hsplit)
    refine ⟨e, ?_, entityLoop_ne_notFound he⟩
    unfold UnmarshalEntity
    cases items with
    | nil => cases hmem
    | cons a rest => exact he

/-- An output entity whose payload decode and absorb-relationship hook always
succeed. -/
def trivialRefTarget : RefTarget :=
  ⟨fun _ => .ok (), fun _ _ _ => .ok ()⟩

/-- An item missing its `hk` key field. -/
def itemMissingHk : Item :=
  [("sk", .S (gs ("a")))]

/-- A non-self item whose label has two segments under the default
delimiter. -/
def twoSegItem : Item :=
  [("hk", .S (gs ("order#O1"))), ("sk", .S (gs ("product#P1"))),
   ("label", .S (gs ("a/b"))), ("data", .M [])]

/-- C7 witness: the three error conditions at concrete inputs. -/
theorem C7_witness :
    UnmarshalEntity [] trivialRefTarget [] 0 = .error .itemNotFound
    ∧ (∃ e, UnmarshalEntity [itemMissingHk] trivialRefTarget [] 0 = .error e
        ∧ e ≠ .itemNotFound)
    ∧ (∃ e, UnmarshalEntity [twoSegItem] trivialRefTarget [] 0 = .error e
        ∧ e ≠ .itemNotFound) :=
  ⟨C7_unmarshal_entity_errors.1 trivialRefTarget [] 0,
   C7_unmarshal_entity_errors.2.1 [itemMissingHk] trivialRefTarget [] 0 itemMissingHk
     (List.mem_singleton.mpr rfl) (Or.inl rfl),
   C7_unmarshal_entity_errors.2.2 [twoSegItem] trivialRefTarget [] 0 twoSegItem
     (gs ("order#O1")) (gs ("product#P1")) (gs ("a/b"))
     (List.mem_singleton.mpr rfl) rfl rfl (by decide) rfl (by decide)⟩

lemma entityLoop_forall2 {mo : MarshalOptions} {out : RefTarget} :
    ∀ {items : List Item} {rels : List Relationship},
      unmarshalEntityLoop mo out items = .ok rels →
      List.Forall₂ (fun it r => unmarshalRelationship it = .ok r) items rels := by
  intro items
  induction items with
  | nil =>
    intro rels h
    simp only [unmarshalEntityLoop, Except.ok.injEq] at h
    subst h
    exact .nil
  | cons a rest ih =>
    intro rels h
    unfold unmarshalEntityLoop at h
    cases hp : processItem mo out a with
    | error e => rw [hp] at h; simp at h
    | ok rel =>
      rw [hp] at h
      dsimp only at h
      cases hl : unmarshalEntityLoop mo out rest with
      | error e => rw [hl] at h; simp at h
      | ok rels2 =>
        rw [hl] at h
        simp only [Except.ok.injEq] at h
        subst h
        exact .cons (processItem_rel hp) (ih hl)

lemma listLoop_forall2 {α : Type} {tgt : UnmarshalTarget α} :
    ∀ {items : List Item} {i : Nat} {rels : List Relationship},
      unmarshalListLoop tgt i items = .ok rels →
      List.Forall₂ (fun it r => unmarshalRelationship it = .ok r) items rels := by
  intro items
  induction items with
  | nil =>
    intro i rels h
    simp only [unmarshalListLoop, Except.ok.injEq] at h
    subst h
    exact .nil
  | cons a rest ih =>
    intro i rels h
    unfold unmarshalListLoop at h
    cases hu : UnmarshalSelf a tgt with
    | error e => rw [hu] at h; simp at h
    | ok p =>
      obtain ⟨rel, x⟩ := p
      rw [hu] at h
      dsimp only at h
      cases hl : unmarshalListLoop tgt (i + 1) rest with
      | error e => rw [hl] at h; simp at h
      | ok rels2 =>
        rw [hl] at h
        simp only [Except.ok.injEq] at h
        subst h
        exact .cons (UnmarshalSelf_rel hu) (ih hl)

/-- C8: order preservation.  Whenever UnmarshalEntity (or UnmarshalList)
decodes a record list successfully, the returned relationship list pairs up
with the input items one to one, in the input order: the j-th returned
relationship is exactly the decoding of the j-th input item.  The engine
never re-sorts. -/
theorem C8_order_preservation :
    (∀ (items : List Item) (out : RefTarget)
        (optFns : List (MarshalOptions → MarshalOptions)) (now : Time)
        (rels : List Relationship),
      UnmarshalEntity items out optFns now = .ok rels →
      List.Forall₂ (fun it r => unmarshalRelationship it = .ok r) items rels)
    ∧ (∀ (α : Type) (tgt : UnmarshalTarget α) (items : List Item)
        (rels : List Relationship),
      UnmarshalList tgt items = .ok rels →
      List.Forall₂ (fun it r => unmarshalRelationship it = .ok r) items rels) := by
  constructor
  · intro items out optFns now rels h
    unfold UnmarshalEntity at h
    cases items with
    | nil => simp at h
    | cons a rest => exact entityLoop_forall2 h
  · intro α tgt items rels h
    exact listLoop_forall2 h

/-- A concrete self item for a product record. -/
def selfItemP1 : Item :=
  [("hk", .S (gs ("product#P1"))), ("sk", .S (gs ("product#P1"))),
   ("label", .S (gs ("product"))), ("data", .M [])]

/-- C8 witness: decoding a singleton record list returns its decoded
relationship in place. -/
theorem C8_witness :
    ∃ rels, UnmarshalEntity [selfItemP1] trivialRefTarget [] 0 = .ok rels
      ∧ List.Forall₂ (fun it r => unmarshalRelationship it = .ok r) [selfItemP1] rels := by
  refine ⟨_, rfl, C8_order_preservation.1 [selfItemP1] trivialRefTarget [] 0 _ rfl⟩
